import Mathlib

/-!
Verification of the fast-next-todo backend domain layer.

The Python sources under `backend/app` are shallowly embedded: each
repository/service method becomes a pure Lean function over an explicit
`State` record standing for the database visible to one unit of work.
Modelling conventions, used consistently below:

* uuid4-generated string ids become naturals drawn from a `nextId`
  counter carried in the state (freshness of uuid4);
* `datetime` values become integers (seconds); `timedelta(days=1)` is
  `secondsPerDay`;
* dynamic Python values that flow through the audit trail become the
  closed type `PyVal`; the JSON text encoding performed by
  `AuditService._serialize_value` is presentation only and is not part
  of any claim;
* SQL result sets become Lists; `.first()` is `List.find?`, a `WHERE`
  clause is `List.filter`, `ORDER BY x DESC` is an insertion sort by the
  corresponding descending relation.
-/

namespace FastTodo

/-- Task priority levels (`app/models/task.py`, `Priority`). -/
inductive Priority
  | low
  | medium
  | high
deriving DecidableEq, Repr

/-- Task recurrence patterns (`app/models/task.py`, `Recurrence`). -/
inductive Recurrence
  | none
  | daily
  | weekly
  | monthly
deriving DecidableEq, Repr

/-- A row of the `tasks` table (`app/models/task.py`, `Task`). -/
structure Task where
  id : Nat
  user_id : Nat
  title : String
  description : Option String
  priority : Priority
  due_date : Option Int
  recurrence : Recurrence
  is_completed : Bool
  completed_at : Option Int
  is_deleted : Bool
  deleted_at : Option Int
  deleted_by : Option Nat
  created_at : Int
  updated_at : Int
deriving DecidableEq, Repr

/-- A row of the `tags` table (`app/models/tag.py`, `Tag`). -/
structure Tag where
  id : Nat
  user_id : Nat
  name : String
  created_at : Int
deriving DecidableEq, Repr

/-- A row of the `task_tags` junction table (`app/models/tag.py`, `TaskTag`). -/
structure TaskTag where
  task_id : Nat
  tag_id : Nat
  created_at : Int
deriving DecidableEq, Repr

/-- Auditable action kinds (`app/models/audit.py`, `ActionType`). -/
inductive ActionType
  | create
  | update
  | complete
  | uncomplete
  | delete
  | recurring_auto_create
deriving DecidableEq, Repr

/-- A dynamic Python value as it appears in task-field diffs and in the
audit old/new columns. `AuditService._serialize_value` keeps null as null
and otherwise JSON-encodes the scalar; that text encoding is presentation
and is modelled by the value itself. -/
inductive PyVal
  | pnone
  | pstr (s : String)
  | pprio (p : Priority)
  | precur (r : Recurrence)
  | pdate (d : Int)
  | pbool (b : Bool)
  | pdict (n : Nat)
deriving DecidableEq, Repr

/-- A row of the `audit_logs` table (`app/models/audit.py`, `AuditLog`). -/
structure AuditLog where
  id : Nat
  entity_type : String
  entity_id : Nat
  user_id : Nat
  action_type : ActionType
  field_changed : Option String
  old_value : PyVal
  new_value : PyVal
  timestamp : Int
  is_system_action : Bool
deriving DecidableEq, Repr

/-- The database visible to one unit of work: the entity tables, the audit
table and a fresh-id source standing for uuid4. -/
structure State where
  tasks : List Task
  tags : List Tag
  task_tags : List TaskTag
  audit : List AuditLog
  nextId : Nat
deriving DecidableEq, Repr

/-- One day of seconds; `timedelta(days=1)` on integer-second datetimes. -/
def secondsPerDay : Int := 86400

namespace TaskRepo

/-- `TaskRepository.get_by_id`: first task with this id, owned by the user
and not soft-deleted. -/
def get_by_id (st : State) (task_id user_id : Nat) : Option Task :=
  st.tasks.find? (fun t => t.id == task_id && t.user_id == user_id && !t.is_deleted)

/-- `TaskRepository.exists_by_id`: some not-deleted task with this id
exists, ignoring the owner. -/
def exists_by_id (st : State) (task_id : Nat) : Bool :=
  st.tasks.any (fun t => t.id == task_id && !t.is_deleted)

/-- `TaskRepository.get_by_id_including_deleted`: first task with this id
owned by the user, soft-deleted rows included. -/
def get_by_id_including_deleted (st : State) (task_id user_id : Nat) : Option Task :=
  st.tasks.find? (fun t => t.id == task_id && t.user_id == user_id)

end TaskRepo

/-- Writing a mutated ORM task row back through the session: the row with
the same primary key is replaced. -/
def State.saveTask (st : State) (t' : Task) : State :=
  { st with tasks := st.tasks.map (fun t => if t.id = t'.id then t' else t) }

/-- Result of a task access check (`app/services/task_service.py`,
`TaskAccessResult`). -/
inductive TaskAccessResult
  | success
  | not_found
  | forbidden
deriving DecidableEq, Repr

namespace TaskService

/-- `TaskService.get_task_with_access_check`: existence first (owner
ignored), then an owner-scoped fetch. -/
def get_task_with_access_check (st : State) (task_id user_id : Nat) :
    TaskAccessResult × Option Task :=
  if !TaskRepo.exists_by_id st task_id then
    (TaskAccessResult.not_found, Option.none)
  else
    match TaskRepo.get_by_id st task_id user_id with
    | Option.none => (TaskAccessResult.forbidden, Option.none)
    | Option.some t => (TaskAccessResult.success, Option.some t)

end TaskService

namespace AuditService

/-- Construction and persistence of one audit entry
(`AuditService.log_*` building an `AuditLog`, then
`AuditRepository.create` adding it to the session). The entry id is drawn
from the uuid4 source. -/
def log (st : State) (now : Int) (entity_type : String) (entity_id user_id : Nat)
    (action_type : ActionType) (field_changed : Option String)
    (old_value new_value : PyVal) (is_system_action : Bool) : State :=
  { st with
    audit := st.audit ++
      [{ id := st.nextId, entity_type := entity_type, entity_id := entity_id,
         user_id := user_id, action_type := action_type,
         field_changed := field_changed, old_value := old_value,
         new_value := new_value, timestamp := now,
         is_system_action := is_system_action }],
    nextId := st.nextId + 1 }

/-- `AuditService.log_create`. The `entity_data` snapshot dict is carried
as one `PyVal` in `new_value`; `log_create` never sets `field_changed`. -/
def log_create (st : State) (now : Int) (entity_type : String)
    (entity_id user_id : Nat) (entity_data : PyVal)
    (is_system_action : Bool) : State :=
  log st now entity_type entity_id user_id ActionType.create Option.none
    PyVal.pnone entity_data is_system_action

/-- A pending field change recorded by `TaskService.update_task` in its
`changes` dict: field name, old value, new value. -/
structure Change where
  field : String
  old_value : PyVal
  new_value : PyVal
deriving DecidableEq, Repr

/-- `AuditService.log_update`: one `update` audit entry for one field. -/
def log_update (st : State) (now : Int) (entity_type : String)
    (entity_id user_id : Nat) (c : Change) : State :=
  log st now entity_type entity_id user_id ActionType.update
    (Option.some c.field) c.old_value c.new_value false

/-- `AuditService.log_updates`: one `update` entry per changed field. -/
def log_updates (st : State) (now : Int) (entity_type : String)
    (entity_id user_id : Nat) (changes : List Change) : State :=
  changes.foldl (fun s c => log_update s now entity_type entity_id user_id c) st

/-- `AuditService.log_complete`. -/
def log_complete (st : State) (now : Int) (entity_type : String)
    (entity_id user_id : Nat) : State :=
  log st now entity_type entity_id user_id ActionType.complete
    (Option.some "is_completed") (PyVal.pbool false) (PyVal.pbool true) false

/-- `AuditService.log_uncomplete`. -/
def log_uncomplete (st : State) (now : Int) (entity_type : String)
    (entity_id user_id : Nat) : State :=
  log st now entity_type entity_id user_id ActionType.uncomplete
    (Option.some "is_completed") (PyVal.pbool true) (PyVal.pbool false) false

/-- `AuditService.log_delete` with `soft_delete=True`. -/
def log_delete_soft (st : State) (now : Int) (entity_type : String)
    (entity_id user_id : Nat) : State :=
  log st now entity_type entity_id user_id ActionType.delete
    (Option.some "is_deleted") (PyVal.pbool false) (PyVal.pbool true) false

/-- `AuditService.log_delete` with `soft_delete=False`. -/
def log_delete_hard (st : State) (now : Int) (entity_type : String)
    (entity_id user_id : Nat) : State :=
  log st now entity_type entity_id user_id ActionType.delete
    Option.none PyVal.pnone PyVal.pnone false

/-- `AuditService.log_recurring_auto_create`; the source task id travels
inside the serialized `new_value` payload. -/
def log_recurring_auto_create (st : State) (now : Int) (entity_type : String)
    (entity_id user_id source_task_id : Nat) : State :=
  log st now entity_type entity_id user_id ActionType.recurring_auto_create
    Option.none PyVal.pnone (PyVal.pdict source_task_id) true

end AuditService

namespace TaskRepo

/-- `TaskRepository.create`: a fresh row with default status fields. -/
def create (st : State) (now : Int) (user_id : Nat) (title : String)
    (description : Option String) (priority : Priority)
    (due_date : Option Int) (recurrence : Recurrence) : Task × State :=
  let t : Task :=
    { id := st.nextId, user_id := user_id, title := title,
      description := description, priority := priority, due_date := due_date,
      recurrence := recurrence, is_completed := false,
      completed_at := Option.none, is_deleted := false,
      deleted_at := Option.none, deleted_by := Option.none,
      created_at := now, updated_at := now }
  (t, { st with tasks := st.tasks ++ [t], nextId := st.nextId + 1 })

/-- `TaskRepository.complete`. -/
def complete (st : State) (now : Int) (task : Task) : Task × State :=
  let t := { task with is_completed := true, completed_at := Option.some now,
                       updated_at := now }
  (t, st.saveTask t)

/-- `TaskRepository.uncomplete`. -/
def uncomplete (st : State) (now : Int) (task : Task) : Task × State :=
  let t := { task with is_completed := false, completed_at := Option.none,
                       updated_at := now }
  (t, st.saveTask t)

/-- `TaskRepository.soft_delete`. -/
def soft_delete (st : State) (now : Int) (task : Task) (deleted_by : Nat) :
    Task × State :=
  let t := { task with is_deleted := true, deleted_at := Option.some now,
                       deleted_by := Option.some deleted_by, updated_at := now }
  (t, st.saveTask t)

/-- `TaskRepository.restore`. -/
def restore (st : State) (now : Int) (task : Task) : Task × State :=
  let t := { task with is_deleted := false, deleted_at := Option.none,
                       deleted_by := Option.none, updated_at := now }
  (t, st.saveTask t)

/-- `TaskRepository._get_valid_tags`: tags that exist and belong to the
user, among the requested ids. -/
def get_valid_tags (st : State) (tag_ids : List Nat) (user_id : Nat) : List Tag :=
  st.tags.filter (fun g => tag_ids.contains g.id && g.user_id == user_id)

/-- `TaskRepository.set_tags`: drop every existing association of the task,
then associate exactly the requested tags that pass
`_get_valid_tags` (invalid or foreign ids are silently skipped). -/
def set_tags (st : State) (now : Int) (task : Task) (tag_ids : List Nat)
    (user_id : Nat) : Task × State :=
  let cleared := st.task_tags.filter (fun a => a.task_id != task.id)
  let fresh :=
    if tag_ids.isEmpty then ([] : List TaskTag)
    else (get_valid_tags st tag_ids user_id).map
      (fun g => { task_id := task.id, tag_id := g.id, created_at := now })
  (task, { st with task_tags := cleared ++ fresh })

end TaskRepo

/-- `TaskCreate` request body (`app/schemas/task.py`), with its defaults. -/
structure TaskCreate where
  title : String
  description : Option String := Option.none
  priority : Priority := Priority.medium
  due_date : Option Int := Option.none
  recurrence : Recurrence := Recurrence.none
  tag_ids : List Nat := []
deriving DecidableEq, Repr

/-- `TaskUpdate` request body (`app/schemas/task.py`): every field optional.
The outer option is presence in the request (pydantic `exclude_unset`), the
inner option is the transmitted value, which may itself be JSON null. -/
structure TaskUpdate where
  title : Option (Option String) := Option.none
  description : Option (Option String) := Option.none
  priority : Option (Option Priority) := Option.none
  due_date : Option (Option Int) := Option.none
  recurrence : Option (Option Recurrence) := Option.none
  tag_ids : Option (Option (List Nat)) := Option.none
deriving DecidableEq, Repr

/-- A transmitted `Optional[str]` as a Python value. -/
def pyOfOptStr : Option String → PyVal
  | Option.none => PyVal.pnone
  | Option.some s => PyVal.pstr s

/-- A transmitted `Optional[Priority]` as a Python value. -/
def pyOfOptPrio : Option Priority → PyVal
  | Option.none => PyVal.pnone
  | Option.some p => PyVal.pprio p

/-- A transmitted `Optional[datetime]` as a Python value. -/
def pyOfOptDate : Option Int → PyVal
  | Option.none => PyVal.pnone
  | Option.some d => PyVal.pdate d

/-- A transmitted `Optional[Recurrence]` as a Python value. -/
def pyOfOptRecur : Option Recurrence → PyVal
  | Option.none => PyVal.pnone
  | Option.some r => PyVal.precur r

namespace TaskService

/-- One iteration of the `update_task` diff loop for one patch field:
absent fields contribute nothing; a present field whose transmitted value
differs from the current attribute contributes one `Change`. -/
def diffField (field : String) (old : PyVal) (transmitted : Option PyVal) :
    List AuditService.Change :=
  match transmitted with
  | Option.none => []
  | Option.some v => if old ≠ v then [{ field := field, old_value := old, new_value := v }] else []

/-- The `changes` dict built by `TaskService.update_task` from the fields
explicitly present in the patch (`model_dump(exclude_unset=True)`, with
`tag_ids` popped first), in schema field order. -/
def updateChanges (task : Task) (p : TaskUpdate) : List AuditService.Change :=
  diffField "title" (PyVal.pstr task.title) (p.title.map pyOfOptStr) ++
  diffField "description" (pyOfOptStr task.description) (p.description.map pyOfOptStr) ++
  diffField "priority" (PyVal.pprio task.priority) (p.priority.map pyOfOptPrio) ++
  diffField "due_date" (pyOfOptDate task.due_date) (p.due_date.map pyOfOptDate) ++
  diffField "recurrence" (pyOfOptRecur task.recurrence) (p.recurrence.map pyOfOptRecur)

/-- `TaskRepository.update` on the kwargs passed by `update_task` (the
present patch fields without `tag_ids`): each present field is assigned
only when its value `is not None`, then `updated_at` is stamped. -/
def repoUpdate (now : Int) (task : Task) (p : TaskUpdate) : Task :=
  { task with
    title := match p.title with
      | Option.some (Option.some v) => v
      | _ => task.title,
    description := match p.description with
      | Option.some (Option.some v) => Option.some v
      | _ => task.description,
    priority := match p.priority with
      | Option.some (Option.some v) => v
      | _ => task.priority,
    due_date := match p.due_date with
      | Option.some (Option.some v) => Option.some v
      | _ => task.due_date,
    recurrence := match p.recurrence with
      | Option.some (Option.some v) => v
      | _ => task.recurrence,
    updated_at := now }

/-- `TaskService.create_task`: repository create, optional tag
association, one audit `create` entry. -/
def create_task (st : State) (now : Int) (user_id : Nat) (data : TaskCreate) :
    Task × State :=
  let (task, st1) := TaskRepo.create st now user_id data.title data.description
    data.priority data.due_date data.recurrence
  let (task2, st2) :=
    if data.tag_ids.isEmpty then (task, st1)
    else TaskRepo.set_tags st1 now task data.tag_ids user_id
  let st3 := AuditService.log_create st2 now "task" task2.id user_id
    (PyVal.pstr task2.title) false
  (task2, st3)

/-- `TaskService.update_task`: resolve ownership, diff the present patch
fields, write them through the repository, replace tags when a tag list is
present, then one audit `update` entry per diffed field. -/
def update_task (st : State) (now : Int) (task_id user_id : Nat)
    (p : TaskUpdate) : (TaskAccessResult × Option Task) × State :=
  match get_task_with_access_check st task_id user_id with
  | (TaskAccessResult.success, Option.some task) =>
    let changes := updateChanges task p
    let task1 := repoUpdate now task p
    let st1 := st.saveTask task1
    let (task2, st2) :=
      match p.tag_ids with
      | Option.some (Option.some ids) => TaskRepo.set_tags st1 now task1 ids user_id
      | _ => (task1, st1)
    let st3 :=
      if changes.isEmpty then st2
      else AuditService.log_updates st2 now "task" task2.id user_id changes
    ((TaskAccessResult.success, Option.some task2), st3)
  | (r, _) => ((r, Option.none), st)

/-- `TaskService._calculate_next_due_date`. -/
def calculate_next_due_date (current_due_date : Option Int)
    (recurrence : Recurrence) : Option Int :=
  match current_due_date with
  | Option.none => Option.none
  | Option.some d =>
    match recurrence with
    | Recurrence.daily => Option.some (d + secondsPerDay)
    | Recurrence.weekly => Option.some (d + 7 * secondsPerDay)
    | Recurrence.monthly => Option.some (d + 30 * secondsPerDay)
    | Recurrence.none => Option.none

/-- `TaskService._create_recurring_task`: the synthesized follow-up copies
title, description, priority and recurrence, takes the computed next due
date and a fresh id, and is recorded by a system `recurring_auto_create`
audit entry. -/
def create_recurring_task (st : State) (now : Int) (source_task : Task)
    (user_id : Nat) : Task × State :=
  let next_due_date := calculate_next_due_date source_task.due_date source_task.recurrence
  let (new_task, st1) := TaskRepo.create st now user_id source_task.title
    source_task.description source_task.priority next_due_date source_task.recurrence
  let st2 := AuditService.log_recurring_auto_create st1 now "task" new_task.id
    user_id source_task.id
  (new_task, st2)

/-- `TaskService.complete_task`: idempotent completion plus the recurrence
hook. -/
def complete_task (st : State) (now : Int) (task_id user_id : Nat) :
    (TaskAccessResult × Option (Task × Option Task)) × State :=
  match get_task_with_access_check st task_id user_id with
  | (TaskAccessResult.success, Option.some task) =>
    if task.is_completed then
      ((TaskAccessResult.success, Option.some (task, Option.none)), st)
    else
      let (completed_task, st1) := TaskRepo.complete st now task
      let st2 := AuditService.log_complete st1 now "task" task.id user_id
      if task.recurrence ≠ Recurrence.none ∧ task.due_date ≠ Option.none then
        let (next_task, st3) := create_recurring_task st2 now completed_task user_id
        ((TaskAccessResult.success, Option.some (completed_task, Option.some next_task)), st3)
      else
        ((TaskAccessResult.success, Option.some (completed_task, Option.none)), st2)
  | (r, _) => ((r, Option.none), st)

/-- `TaskService.uncomplete_task`: idempotent inverse of completion. -/
def uncomplete_task (st : State) (now : Int) (task_id user_id : Nat) :
    (TaskAccessResult × Option Task) × State :=
  match get_task_with_access_check st task_id user_id with
  | (TaskAccessResult.success, Option.some task) =>
    if !task.is_completed then
      ((TaskAccessResult.success, Option.some task), st)
    else
      let (task1, st1) := TaskRepo.uncomplete st now task
      let st2 := AuditService.log_uncomplete st1 now "task" task1.id user_id
      ((TaskAccessResult.success, Option.some task1), st2)
  | (r, _) => ((r, Option.none), st)

/-- `TaskService.delete_task`: soft delete plus its audit entry. -/
def delete_task (st : State) (now : Int) (task_id user_id : Nat) :
    TaskAccessResult × State :=
  match get_task_with_access_check st task_id user_id with
  | (TaskAccessResult.success, Option.some task) =>
    let (task1, st1) := TaskRepo.soft_delete st now task user_id
    let st2 := AuditService.log_delete_soft st1 now "task" task1.id user_id
    (TaskAccessResult.success, st2)
  | (r, _) => (r, st)

end TaskService

/-- Python `str.strip()`: drop leading and trailing whitespace. -/
def pyStrip (s : String) : String :=
  ⟨((s.data.dropWhile Char.isWhitespace).reverse.dropWhile
      Char.isWhitespace).reverse⟩

/-- Python `str.lower()` as issued by SQL `func.lower`: lower-case each
character. -/
def pyLower (s : String) : String := ⟨s.data.map Char.toLower⟩

namespace TagSchema

/-- `TagBase.validate_name` and `TagUpdate.validate_name`
(`app/schemas/tag.py`): strip surrounding whitespace, reject a name that
is empty or whitespace-only, return the stripped name. -/
def validate_name (v : String) : Except String String :=
  let stripped := pyStrip v
  if stripped = "" then
    Except.error "Tag name cannot be empty or whitespace-only"
  else Except.ok stripped

end TagSchema

namespace TagRepo

/-- `TagRepository.get_by_id`: owner-scoped lookup. -/
def get_by_id (st : State) (tag_id user_id : Nat) : Option Tag :=
  st.tags.find? (fun g => g.id == tag_id && g.user_id == user_id)

/-- `TagRepository.exists_by_id`: existence ignoring the owner. -/
def exists_by_id (st : State) (tag_id : Nat) : Bool :=
  st.tags.any (fun g => g.id == tag_id)

/-- `TagRepository.get_by_name`: case-insensitive per-owner lookup, both
sides passed through `func.lower`. -/
def get_by_name (st : State) (user_id : Nat) (name : String) : Option Tag :=
  st.tags.find? (fun g => g.user_id == user_id && pyLower g.name == pyLower name)

/-- `TagRepository.create`. -/
def create (st : State) (now : Int) (user_id : Nat) (name : String) :
    Tag × State :=
  let g : Tag := { id := st.nextId, user_id := user_id, name := name,
                   created_at := now }
  (g, { st with tags := st.tags ++ [g], nextId := st.nextId + 1 })

/-- `TagRepository.update`: rename the row in place. -/
def updateName (st : State) (tag : Tag) (name : String) : Tag × State :=
  let g := { tag with name := name }
  (g, { st with tags := st.tags.map (fun x => if x.id = g.id then g else x) })

/-- `TagRepository.delete`: hard delete; per its contract the task_tags
associations referencing the tag are cascade-removed. -/
def delete (st : State) (tag : Tag) : State :=
  { st with tags := st.tags.filter (fun x => x.id != tag.id),
            task_tags := st.task_tags.filter (fun a => a.tag_id != tag.id) }

end TagRepo

/-- Result of a tag access check (`app/services/tag_service.py`,
`TagAccessResult`). -/
inductive TagAccessResult
  | success
  | not_found
  | forbidden
deriving DecidableEq, Repr

/-- The recoverable errors a tag request can raise: the service's
`ValueError` on a name collision, and the schema validation rejection. -/
inductive TagError
  | conflict (msg : String)
  | validation (msg : String)
deriving DecidableEq, Repr

namespace TagService

/-- `TagService.get_tag_with_access_check`. -/
def get_tag_with_access_check (st : State) (tag_id user_id : Nat) :
    TagAccessResult × Option Tag :=
  if !TagRepo.exists_by_id st tag_id then
    (TagAccessResult.not_found, Option.none)
  else
    match TagRepo.get_by_id st tag_id user_id with
    | Option.none => (TagAccessResult.forbidden, Option.none)
    | Option.some g => (TagAccessResult.success, Option.some g)

/-- `TagService.create_tag` behind the `TagCreate` boundary validation:
validate and strip the name, raise on a case-insensitive per-owner
collision, otherwise create and write one audit `create` entry. -/
def create_tag (st : State) (now : Int) (user_id : Nat) (raw_name : String) :
    Except TagError (Tag × State) :=
  match TagSchema.validate_name raw_name with
  | Except.error m => Except.error (TagError.validation m)
  | Except.ok nm =>
    match TagRepo.get_by_name st user_id nm with
    | Option.some _ => Except.error (TagError.conflict "Tag with this name already exists")
    | Option.none =>
      let (tag, st1) := TagRepo.create st now user_id nm
      let st2 := AuditService.log_create st1 now "tag" tag.id user_id
        (PyVal.pstr tag.name) false
      Except.ok (tag, st2)

/-- `TagService.update_tag` on an already-validated patch name: resolve
ownership; when a name is supplied, a collision with a DIFFERENT tag id
raises; otherwise rename and write one audit `update` entry. -/
def update_tag_validated (st : State) (now : Int) (tag_id user_id : Nat)
    (name : Option String) :
    Except TagError ((TagAccessResult × Option Tag) × State) :=
  match get_tag_with_access_check st tag_id user_id with
  | (TagAccessResult.success, Option.some tag) =>
    match name with
    | Option.none => Except.ok ((TagAccessResult.success, Option.some tag), st)
    | Option.some nm =>
      let collision :=
        match TagRepo.get_by_name st user_id nm with
        | Option.some existing => existing.id != tag_id
        | Option.none => false
      if collision then
        Except.error (TagError.conflict "Tag with this name already exists")
      else
        let (tag1, st1) := TagRepo.updateName st tag nm
        let st2 := AuditService.log_updates st1 now "tag" tag1.id user_id
          [{ field := "name", old_value := PyVal.pstr tag.name,
             new_value := PyVal.pstr nm }]
        Except.ok ((TagAccessResult.success, Option.some tag1), st2)
  | (r, _) => Except.ok ((r, Option.none), st)

/-- `TagService.update_tag` behind the `TagUpdate` boundary validation. -/
def update_tag (st : State) (now : Int) (tag_id user_id : Nat)
    (raw_name : Option String) :
    Except TagError ((TagAccessResult × Option Tag) × State) :=
  match raw_name with
  | Option.none => update_tag_validated st now tag_id user_id Option.none
  | Option.some v =>
    match TagSchema.validate_name v with
    | Except.error m => Except.error (TagError.validation m)
    | Except.ok nm => update_tag_validated st now tag_id user_id (Option.some nm)

/-- `TagService.delete_tag`. -/
def delete_tag (st : State) (now : Int) (tag_id user_id : Nat) :
    TagAccessResult × State :=
  match get_tag_with_access_check st tag_id user_id with
  | (TagAccessResult.success, Option.some tag) =>
    let st1 := TagRepo.delete st tag
    let st2 := AuditService.log_delete_hard st1 now "tag" tag_id user_id
    (TagAccessResult.success, st2)
  | (r, _) => (r, st)

end TagService

namespace AuditRepo

/-- The `ORDER BY timestamp DESC` relation of every audit query. -/
def tsDesc (a b : AuditLog) : Prop := b.timestamp ≤ a.timestamp

instance : DecidableRel tsDesc :=
  fun a b => inferInstanceAs (Decidable (b.timestamp ≤ a.timestamp))

instance : IsTotal AuditLog tsDesc :=
  ⟨fun a b => le_total b.timestamp a.timestamp⟩

instance : IsTrans AuditLog tsDesc :=
  ⟨fun _ _ _ h1 h2 => le_trans h2 h1⟩

/-- The sort applied by the storage layer for `ORDER BY timestamp DESC`. -/
def orderByTimestampDesc (l : List AuditLog) : List AuditLog :=
  l.insertionSort tsDesc

/-- `AuditRepository.get_by_entity`: filter, order descending, paginate. -/
def get_by_entity (st : State) (entity_type : String) (entity_id : Nat)
    (limit offset : Nat) : List AuditLog :=
  ((orderByTimestampDesc (st.audit.filter
      (fun e => e.entity_type == entity_type && e.entity_id == entity_id))).drop
    offset).take limit

/-- `AuditRepository.get_by_user`. -/
def get_by_user (st : State) (user_id : Nat) (limit offset : Nat) :
    List AuditLog :=
  ((orderByTimestampDesc (st.audit.filter
      (fun e => e.user_id == user_id))).drop offset).take limit

/-- `AuditRepository.get_by_action_type`, with the optional `since` lower
bound. -/
def get_by_action_type (st : State) (action_type : ActionType)
    (since : Option Int) (limit offset : Nat) : List AuditLog :=
  let base := st.audit.filter (fun e => decide (e.action_type = action_type))
  let bounded :=
    match since with
    | Option.some s => base.filter (fun e => decide (s ≤ e.timestamp))
    | Option.none => base
  ((orderByTimestampDesc bounded).drop offset).take limit

end AuditRepo

/-- One boundary-triggered mutating service call of the code base. -/
inductive Op
  | taskCreate (now : Int) (user_id : Nat) (data : TaskCreate)
  | taskUpdate (now : Int) (task_id user_id : Nat) (p : TaskUpdate)
  | taskComplete (now : Int) (task_id user_id : Nat)
  | taskUncomplete (now : Int) (task_id user_id : Nat)
  | taskDelete (now : Int) (task_id user_id : Nat)
  | taskRestore (now : Int) (task_id user_id : Nat)
  | tagCreate (now : Int) (user_id : Nat) (raw_name : String)
  | tagUpdate (now : Int) (tag_id user_id : Nat) (raw_name : Option String)
  | tagDelete (now : Int) (tag_id user_id : Nat)
deriving Repr

/-- The state reached by one service call. A raised error (validation or
conflict) aborts the unit of work, leaving the state unchanged;
`TaskRepository.restore` has no service wrapper and is applied to an
owner-scoped lookup that includes soft-deleted rows. -/
def applyOp (op : Op) (st : State) : State :=
  match op with
  | Op.taskCreate now uid data => (TaskService.create_task st now uid data).2
  | Op.taskUpdate now tid uid p => (TaskService.update_task st now tid uid p).2
  | Op.taskComplete now tid uid => (TaskService.complete_task st now tid uid).2
  | Op.taskUncomplete now tid uid => (TaskService.uncomplete_task st now tid uid).2
  | Op.taskDelete now tid uid => (TaskService.delete_task st now tid uid).2
  | Op.taskRestore now tid uid =>
    match TaskRepo.get_by_id_including_deleted st tid uid with
    | Option.some t => (TaskRepo.restore st now t).2
    | Option.none => st
  | Op.tagCreate now uid nm =>
    match TagService.create_tag st now uid nm with
    | Except.ok (_, st') => st'
    | Except.error _ => st
  | Op.tagUpdate now gid uid nm =>
    match TagService.update_tag st now gid uid nm with
    | Except.ok (_, st') => st'
    | Except.error _ => st
  | Op.tagDelete now gid uid => (TagService.delete_tag st now gid uid).2

/-- Claim C8 status consistency for one task row. -/
def Task.consistent (t : Task) : Prop :=
  (t.is_completed = true ↔ t.completed_at ≠ Option.none) ∧
  (t.is_deleted = true ↔ (t.deleted_at ≠ Option.none ∧ t.deleted_by ≠ Option.none))

instance (t : Task) : Decidable t.consistent := by
  unfold Task.consistent; infer_instance

/-- Claim C8 status consistency for every stored task row. -/
def State.tasksConsistent (st : State) : Prop := ∀ t ∈ st.tasks, t.consistent

instance (st : State) : Decidable st.tasksConsistent :=
  List.decidableBAll _ _

/-- The audit log of the second store is the audit log of the first plus
newly appended entries - nothing rewritten, nothing dropped. -/
def AuditExtends (st st' : State) : Prop :=
  ∃ new, st'.audit = st.audit ++ new

/-- Freshness of the uuid4 source: every stored task id is below the
counter, so a newly created row cannot collide. -/
def State.freshTaskIds (st : State) : Prop := ∀ t ∈ st.tasks, t.id < st.nextId

instance (st : State) : Decidable st.freshTaskIds :=
  List.decidableBAll _ _

namespace RateLimiter

/-- One limiter (`app/middleware/rate_limit.py`, `RateLimiter` together
with its `RateLimitBucket` map). Timestamps are rationals standing for
`time.time()` floats; each call receives `now` explicitly. -/
structure Limiter where
  requests_per_minute : Nat
  window_seconds : Nat
  buckets : List (String × List ℚ)
deriving DecidableEq, Repr

/-- Reading `self.buckets[identifier]` from the defaultdict: a missing
identifier denotes the empty bucket. -/
def getBucket (rl : Limiter) (identifier : String) : List ℚ :=
  match rl.buckets.find? (fun p => p.1 == identifier) with
  | Option.some p => p.2
  | Option.none => []

/-- Writing the identifier's bucket back to the map (the defaultdict entry
mutated in place, created on first access). -/
def setBucket (rl : Limiter) (identifier : String) (b : List ℚ) : Limiter :=
  { rl with buckets :=
      if rl.buckets.any (fun p => p.1 == identifier) then
        rl.buckets.map (fun p => if p.1 == identifier then (identifier, b) else p)
      else rl.buckets ++ [(identifier, b)] }

/-- `RateLimitBucket.count`: survivors strictly newer than the cutoff. -/
def countInWindow (requests : List ℚ) (now : ℚ) (window_seconds : Nat) : Nat :=
  (requests.filter (fun t => decide (now - (window_seconds : ℚ) < t))).length

/-- `RateLimitBucket.add_request`: prune to the window, then append. -/
def add_request (requests : List ℚ) (timestamp : ℚ) (window_seconds : Nat) :
    List ℚ :=
  requests.filter (fun t => decide (timestamp - (window_seconds : ℚ) < t)) ++ [timestamp]

/-- `RateLimiter.is_allowed`: count the identifier's in-window requests;
at or above the limit reject recording nothing, otherwise record `now` and
report the remaining quota. -/
def is_allowed (rl : Limiter) (now : ℚ) (identifier : String) :
    (Bool × Int) × Limiter :=
  let bucket := getBucket rl identifier
  let current_count := countInWindow bucket now rl.window_seconds
  if rl.requests_per_minute ≤ current_count then
    ((false, 0), setBucket rl identifier bucket)
  else
    ((true, (rl.requests_per_minute : Int) - current_count - 1),
      setBucket rl identifier (add_request bucket now rl.window_seconds))

/-- Python `int()` on a float: truncation toward zero. -/
def pyInt (q : ℚ) : Int := if 0 ≤ q then ⌊q⌋ else -⌊-q⌋

/-- `RateLimiter.get_retry_after`: 0 for a missing or empty bucket, else
at least one second, counting until the oldest retained entry leaves the
window. -/
def get_retry_after (rl : Limiter) (now : ℚ) (identifier : String) : Int :=
  match rl.buckets.find? (fun p => p.1 == identifier) with
  | Option.none => 0
  | Option.some p =>
    match p.2 with
    | [] => 0
    | t :: ts =>
      let oldest := ts.foldl min t
      max 1 (pyInt ((rl.window_seconds : ℚ) - (now - oldest)))

end RateLimiter

/-! Concrete fixtures used by the closed instantiations below. -/

/-- A plain not-completed, not-deleted task owned by user 1. -/
def baseTask : Task :=
  { id := 1, user_id := 1, title := "a", description := Option.none,
    priority := Priority.medium, due_date := Option.none,
    recurrence := Recurrence.none, is_completed := false,
    completed_at := Option.none, is_deleted := false,
    deleted_at := Option.none, deleted_by := Option.none,
    created_at := 0, updated_at := 0 }

/-- A store holding only `baseTask`. -/
def baseState : State :=
  { tasks := [baseTask], tags := [], task_tags := [], audit := [], nextId := 2 }

/-- A task with a description, for the null-patch run. -/
def descTask : Task := { baseTask with description := Option.some "keep" }

/-- A store holding only `descTask`. -/
def descState : State :=
  { tasks := [descTask], tags := [], task_tags := [], audit := [], nextId := 2 }

/-- A patch whose only field is `description`, explicitly transmitted as
JSON null. -/
def nullDescPatch : TaskUpdate := { description := Option.some Option.none }

/-- A weekly-recurring task due at time 100. -/
def weeklyTask : Task :=
  { baseTask with recurrence := Recurrence.weekly, due_date := Option.some 100 }

/-- A store holding only `weeklyTask`. -/
def weeklyState : State :=
  { tasks := [weeklyTask], tags := [], task_tags := [], audit := [], nextId := 2 }

/-- An already-completed recurring task. -/
def doneTask : Task :=
  { weeklyTask with is_completed := true, completed_at := Option.some 50 }

/-- A store holding only `doneTask`. -/
def doneState : State :=
  { tasks := [doneTask], tags := [], task_tags := [], audit := [], nextId := 2 }

/-- A tag named Work owned by user 7. -/
def workTag : Tag := { id := 1, user_id := 7, name := "Work", created_at := 0 }

/-- A store holding only `workTag`. -/
def workState : State :=
  { tasks := [], tags := [workTag], task_tags := [], audit := [], nextId := 2 }

/-- A second tag of the same owner. -/
def homeTag : Tag := { id := 2, user_id := 7, name := "Home", created_at := 0 }

/-- A store holding `workTag` and `homeTag`. -/
def workState2 : State :=
  { tasks := [], tags := [workTag, homeTag], task_tags := [], audit := [],
    nextId := 3 }

/-- A limiter allowing 3 requests per 60 seconds whose only bucket already
holds requests at times 0, 1 and 2. -/
def fullLimiter : RateLimiter.Limiter :=
  { requests_per_minute := 3, window_seconds := 60, buckets := [("u", [0, 1, 2])] }

/-- An association belonging to an unrelated task. -/
def assocOther : TaskTag := { task_id := 42, tag_id := 1, created_at := 0 }

/-- A store with two tags of owner 7 and one unrelated association. -/
def tagFixState : State :=
  { tasks := [], tags := [workTag, homeTag], task_tags := [assocOther],
    audit := [], nextId := 3 }

/-! Shared helper lemmas. -/

/-- Unpacking a successful owner-scoped fetch. -/
theorem get_by_id_elim {st : State} {tid uid : Nat} {t : Task}
    (h : TaskRepo.get_by_id st tid uid = Option.some t) :
    t ∈ st.tasks ∧ t.id = tid ∧ t.user_id = uid ∧ t.is_deleted = false := by
  unfold TaskRepo.get_by_id at h
  have hmem := List.mem_of_find?_eq_some h
  have hp := List.find?_some h
  simp only [Bool.and_eq_true, beq_iff_eq, Bool.not_eq_true'] at hp
  exact ⟨hmem, hp.1.1, hp.1.2, hp.2⟩

/-- A successful access check is exactly a successful owner-scoped fetch. -/
theorem gtac_success_elim {st : State} {tid uid : Nat} {t : Task}
    (h : TaskService.get_task_with_access_check st tid uid =
      (TaskAccessResult.success, Option.some t)) :
    TaskRepo.get_by_id st tid uid = Option.some t := by
  unfold TaskService.get_task_with_access_check at h
  split at h
  · simp at h
  · split at h
    · simp at h
    · rename_i heq
      cases h
      exact heq

/-- In an id-unique task list, membership plus a shared id forces
equality. -/
theorem eq_of_mem_of_id_unique {l : List Task}
    (h : l.Pairwise (fun a b => a.id ≠ b.id)) {a b : Task}
    (ha : a ∈ l) (hb : b ∈ l) (hid : a.id = b.id) : a = b := by
  induction l with
  | nil => cases ha
  | cons x xs ih =>
    have hx := (List.pairwise_cons.mp h).1
    have hxs := (List.pairwise_cons.mp h).2
    cases ha with
    | head => cases hb with
      | head => rfl
      | tail _ hb' => exact absurd hid (hx b hb')
    | tail _ ha' => cases hb with
      | head => exact absurd hid.symm (hx a ha')
      | tail _ hb' => exact ih hxs ha' hb'

/-! Claim theorems. -/

/-- Claim C2: ownership resolution first checks existence ignoring the
owner and returns NotFound when the entity is absent; otherwise it fetches
filtered by owner, returning Forbidden when that fetch is empty and
Success with the owned entity otherwise. -/
theorem C2_ownership_resolution (st : State) (tid uid : Nat) :
    ((∀ t ∈ st.tasks, t.id = tid → t.is_deleted = true) →
      TaskService.get_task_with_access_check st tid uid =
        (TaskAccessResult.not_found, Option.none)) ∧
    ((∃ t ∈ st.tasks, t.id = tid ∧ t.is_deleted = false) →
     (∀ t ∈ st.tasks, t.id = tid → t.user_id = uid → t.is_deleted = true) →
      TaskService.get_task_with_access_check st tid uid =
        (TaskAccessResult.forbidden, Option.none)) ∧
    (∀ t ∈ st.tasks, st.tasks.Pairwise (fun a b => a.id ≠ b.id) →
      t.id = tid → t.user_id = uid → t.is_deleted = false →
      TaskService.get_task_with_access_check st tid uid =
        (TaskAccessResult.success, Option.some t)) := by
  refine ⟨?notFound, ?forbidden, ?success⟩
  case notFound =>
    intro hall
    have hex : TaskRepo.exists_by_id st tid = false := by
      unfold TaskRepo.exists_by_id
      rw [List.any_eq_false]
      intro t ht
      simp only [Bool.and_eq_true, beq_iff_eq, Bool.not_eq_true', not_and]
      intro hid
      simp [hall t ht hid]
    simp [TaskService.get_task_with_access_check, hex]
  case forbidden =>
    intro hsome hall
    obtain ⟨w, hw, hwid, hwdel⟩ := hsome
    have hex : TaskRepo.exists_by_id st tid = true := by
      unfold TaskRepo.exists_by_id
      rw [List.any_eq_true]
      exact ⟨w, hw, by simp [hwid, hwdel]⟩
    have hget : TaskRepo.get_by_id st tid uid = Option.none := by
      unfold TaskRepo.get_by_id
      rw [List.find?_eq_none]
      intro t ht
      simp only [Bool.and_eq_true, beq_iff_eq, Bool.not_eq_true', not_and]
      intro h12
      simp [hall t ht h12.1 h12.2]
    simp [TaskService.get_task_with_access_check, hex, hget]
  case success =>
    intro t ht huniq hid huid hdel
    have hex : TaskRepo.exists_by_id st tid = true := by
      unfold TaskRepo.exists_by_id
      rw [List.any_eq_true]
      exact ⟨t, ht, by simp [hid, hdel]⟩
    have hget : TaskRepo.get_by_id st tid uid = Option.some t := by
      unfold TaskRepo.get_by_id
      cases hfind : st.tasks.find?
          (fun x => x.id == tid && x.user_id == uid && !x.is_deleted) with
      | none =>
        rw [List.find?_eq_none] at hfind
        exact absurd (by simp [hid, huid, hdel] :
          (t.id == tid && t.user_id == uid && !t.is_deleted) = true)
          (hfind t ht)
      | some t' =>
        have hmem := List.mem_of_find?_eq_some hfind
        have hp := List.find?_some hfind
        simp only [Bool.and_eq_true, beq_iff_eq, Bool.not_eq_true'] at hp
        have : t' = t := eq_of_mem_of_id_unique huniq hmem ht (hp.1.1.trans hid.symm)
        rw [this]
    simp [TaskService.get_task_with_access_check, hex, hget]

/-- Witness for C2 on a one-task store: a missing id resolves NotFound, a
foreign caller resolves Forbidden, the owner resolves Success. -/
theorem C2_ownership_resolution_witness :
    TaskService.get_task_with_access_check baseState 9 1 =
      (TaskAccessResult.not_found, Option.none) ∧
    TaskService.get_task_with_access_check baseState 1 2 =
      (TaskAccessResult.forbidden, Option.none) ∧
    TaskService.get_task_with_access_check baseState 1 1 =
      (TaskAccessResult.success, Option.some baseTask) :=
  ⟨(C2_ownership_resolution baseState 9 1).1 (by decide),
   (C2_ownership_resolution baseState 1 2).2.1 (by decide) (by decide),
   (C2_ownership_resolution baseState 1 1).2.2 baseTask (by decide)
     (by simp [baseState]) rfl rfl rfl⟩

/-- Claim C4: completing an already-completed task returns success carrying
the task and no follow-up, and leaves the whole store - tasks, tags,
associations and audit log - exactly as it was. -/
theorem C4_complete_idempotent (st : State) (now : Int) (tid uid : Nat)
    (task : Task)
    (hacc : TaskService.get_task_with_access_check st tid uid =
      (TaskAccessResult.success, Option.some task))
    (hdone : task.is_completed = true) :
    TaskService.complete_task st now tid uid =
      ((TaskAccessResult.success, Option.some (task, Option.none)), st) := by
  unfold TaskService.complete_task
  rw [hacc]
  simp [hdone]

/-- Witness for C4: completing the already-completed `doneTask` returns it
unchanged, with no follow-up and an untouched store. -/
theorem C4_complete_idempotent_witness :
    TaskService.complete_task doneState 5 1 1 =
      ((TaskAccessResult.success, Option.some (doneTask, Option.none)), doneState) :=
  C4_complete_idempotent doneState 5 1 1 doneTask (by decide) rfl

/-- Claim C3: completing a not-yet-completed task synthesizes a follow-up
exactly when its recurrence is not none and its due date is present; the
follow-up is one task appended to the store, copying title, description,
priority and recurrence, not yet completed, with a distinct fresh id and
the due date advanced by 1 day, 7 days or a fixed 30 days. -/
theorem C3_recurrence (st : State) (now : Int) (tid uid : Nat) (task : Task)
    (hacc : TaskService.get_task_with_access_check st tid uid =
      (TaskAccessResult.success, Option.some task))
    (hnc : task.is_completed = false)
    (hfresh : st.freshTaskIds) :
    ((task.recurrence = Recurrence.none ∨ task.due_date = Option.none) →
      ∃ st',
        TaskService.complete_task st now tid uid =
          ((TaskAccessResult.success, Option.some
            ({task with is_completed := true, completed_at := Option.some now,
                        updated_at := now}, Option.none)), st') ∧
        st'.tasks = st.tasks.map (fun t =>
          if t.id = task.id then
            { task with is_completed := true, completed_at := Option.some now,
                        updated_at := now }
          else t)) ∧
    (∀ d, task.due_date = Option.some d → task.recurrence ≠ Recurrence.none →
      ∃ next st',
        TaskService.complete_task st now tid uid =
          ((TaskAccessResult.success, Option.some
            ({task with is_completed := true, completed_at := Option.some now,
                        updated_at := now}, Option.some next)), st') ∧
        st'.tasks = st.tasks.map (fun t =>
          if t.id = task.id then
            { task with is_completed := true, completed_at := Option.some now,
                        updated_at := now }
          else t) ++ [next] ∧
        next.title = task.title ∧
        next.description = task.description ∧
        next.priority = task.priority ∧
        next.recurrence = task.recurrence ∧
        next.is_completed = false ∧
        next.id ≠ task.id ∧
        (task.recurrence = Recurrence.daily →
          next.due_date = Option.some (d + secondsPerDay)) ∧
        (task.recurrence = Recurrence.weekly →
          next.due_date = Option.some (d + 7 * secondsPerDay)) ∧
        (task.recurrence = Recurrence.monthly →
          next.due_date = Option.some (d + 30 * secondsPerDay))) := by
  have hget := gtac_success_elim hacc
  have hmem := (get_by_id_elim hget).1
  have hlt : task.id < st.nextId := hfresh task hmem
  constructor
  · intro hnone
    have hcond : ¬(task.recurrence ≠ Recurrence.none ∧ task.due_date ≠ Option.none) := by
      rcases hnone with h | h <;> simp [h]
    refine ⟨AuditService.log_complete
        (st.saveTask { task with
                       is_completed := true,
                       completed_at := Option.some now,
                       updated_at := now }) now "task"
        task.id uid, ?_, ?_⟩
    · unfold TaskService.complete_task
      rw [hacc]
      simp [hnc, if_neg hcond, TaskRepo.complete]
    · simp [AuditService.log_complete, AuditService.log, State.saveTask]
  · intro d hdue hrec
    have hcond : task.recurrence ≠ Recurrence.none ∧ task.due_date ≠ Option.none :=
      ⟨hrec, by simp [hdue]⟩
    refine ⟨(TaskService.create_recurring_task (AuditService.log_complete
        (st.saveTask { task with
                       is_completed := true,
                       completed_at := Option.some now,
                       updated_at := now }) now "task"
        task.id uid) now
        { task with
          is_completed := true,
          completed_at := Option.some now,
          updated_at := now } uid).1,
      (TaskService.create_recurring_task (AuditService.log_complete
        (st.saveTask { task with
                       is_completed := true,
                       completed_at := Option.some now,
                       updated_at := now }) now "task"
        task.id uid) now
        { task with
          is_completed := true,
          completed_at := Option.some now,
          updated_at := now } uid).2,
      ?_, ?_, rfl, rfl, rfl, rfl, rfl, ?_, ?_, ?_, ?_⟩
    · unfold TaskService.complete_task
      rw [hacc]
      simp [hnc, if_pos hcond, TaskRepo.complete]
    · simp [TaskRepo.complete, AuditService.log_complete, AuditService.log,
        State.saveTask, TaskService.create_recurring_task, TaskRepo.create,
        AuditService.log_recurring_auto_create]
    · exact (Nat.ne_of_lt (Nat.lt_succ_of_lt hlt)).symm
    · intro hr
      simp [TaskService.create_recurring_task, TaskRepo.create,
        TaskService.calculate_next_due_date, hdue, hr]
    · intro hr
      simp [TaskService.create_recurring_task, TaskRepo.create,
        TaskService.calculate_next_due_date, hdue, hr]
    · intro hr
      simp [TaskService.create_recurring_task, TaskRepo.create,
        TaskService.calculate_next_due_date, hdue, hr]

/-- Witness for C3: completing the weekly task due at 100 yields one
follow-up whose due date is 100 plus 7 days, copying the source fields,
under a fresh id. -/
theorem C3_recurrence_witness :
    ∃ next st',
      TaskService.complete_task weeklyState 5 1 1 =
        ((TaskAccessResult.success, Option.some
          ({ weeklyTask with
             is_completed := true,
             completed_at := Option.some 5,
             updated_at := 5 }, Option.some next)), st') ∧
      st'.tasks = weeklyState.tasks.map (fun t =>
        if t.id = weeklyTask.id then
          { weeklyTask with
            is_completed := true,
            completed_at := Option.some 5,
            updated_at := 5 }
        else t) ++ [next] ∧
      next.title = weeklyTask.title ∧
      next.description = weeklyTask.description ∧
      next.priority = weeklyTask.priority ∧
      next.recurrence = weeklyTask.recurrence ∧
      next.is_completed = false ∧
      next.id ≠ weeklyTask.id ∧
      (weeklyTask.recurrence = Recurrence.daily →
        next.due_date = Option.some (100 + secondsPerDay)) ∧
      (weeklyTask.recurrence = Recurrence.weekly →
        next.due_date = Option.some (100 + 7 * secondsPerDay)) ∧
      (weeklyTask.recurrence = Recurrence.monthly →
        next.due_date = Option.some (100 + 30 * secondsPerDay)) :=
  (C3_recurrence weeklyState 5 1 1 weeklyTask (by decide) rfl
    (by decide)).2 100 rfl (by decide)

/-- Claim C1 at its failing input: updating `descTask` with a patch whose
only field is `description`, explicitly transmitted as null, succeeds and
emits exactly one audit `update` entry recording a change of
`description` from its old value to null, yet the stored task still
carries the old description - the explicitly transmitted null is never
applied, because `TaskRepository.update` skips `None` values. -/
theorem C1_null_patch_audited_but_not_applied :
    (TaskService.update_task descState 5 1 1 nullDescPatch).1 =
      (TaskAccessResult.success, Option.some { descTask with updated_at := 5 }) ∧
    (TaskService.update_task descState 5 1 1 nullDescPatch).2.tasks =
      [{ descTask with updated_at := 5 }] ∧
    (TaskService.update_task descState 5 1 1 nullDescPatch).2.audit.map
        (fun e => (e.action_type, e.field_changed, e.old_value, e.new_value)) =
      [(ActionType.update, Option.some "description", PyVal.pstr "keep",
        PyVal.pnone)] := by
  decide

/-- Claim C5: tag name uniqueness is enforced case-insensitively per
owner - an empty or whitespace-only name is rejected at validation; a
create whose trimmed name matches an existing tag of the same owner up to
case raises Conflict and leaves the store unchanged; a tag update applies
the same rule while excluding the tag's own id, renaming when only the tag
itself matches and raising Conflict when a different tag matches. -/
theorem C5_tag_name_uniqueness (st : State) (now : Int) (uid : Nat)
    (raw : String) :
    (pyStrip raw = "" →
      ∃ m, TagService.create_tag st now uid raw =
        Except.error (TagError.validation m)) ∧
    ((∃ g ∈ st.tags, g.user_id = uid ∧ pyLower g.name = pyLower (pyStrip raw)) →
      pyStrip raw ≠ "" →
      (∃ m, TagService.create_tag st now uid raw =
        Except.error (TagError.conflict m)) ∧
      applyOp (Op.tagCreate now uid raw) st = st) ∧
    (∀ gid tag nm,
      TagService.get_tag_with_access_check st gid uid =
        (TagAccessResult.success, Option.some tag) →
      (∃ g ∈ st.tags, g.user_id = uid ∧ pyLower g.name = pyLower nm) →
      (∀ g ∈ st.tags, g.user_id = uid → pyLower g.name = pyLower nm →
        g.id ≠ gid) →
      ∃ m, TagService.update_tag_validated st now gid uid (Option.some nm) =
        Except.error (TagError.conflict m)) ∧
    (∀ gid tag nm,
      TagService.get_tag_with_access_check st gid uid =
        (TagAccessResult.success, Option.some tag) →
      (∀ g ∈ st.tags, g.user_id = uid → pyLower g.name = pyLower nm →
        g.id = gid) →
      ∃ st', TagService.update_tag_validated st now gid uid (Option.some nm) =
        Except.ok ((TagAccessResult.success,
          Option.some { tag with name := nm }), st')) := by
  refine ⟨?validation, ?conflict, ?updConflict, ?updOk⟩
  case validation =>
    intro h
    exact ⟨"Tag name cannot be empty or whitespace-only",
      by simp [TagService.create_tag, TagSchema.validate_name, h]⟩
  case conflict =>
    intro hex hne
    have hval : TagSchema.validate_name raw = Except.ok (pyStrip raw) := by
      simp [TagSchema.validate_name, hne]
    have hfind : ∃ g', TagRepo.get_by_name st uid (pyStrip raw) = Option.some g' := by
      cases hf : TagRepo.get_by_name st uid (pyStrip raw) with
      | some g' => exact ⟨g', rfl⟩
      | none =>
        unfold TagRepo.get_by_name at hf
        rw [List.find?_eq_none] at hf
        obtain ⟨g, hg, hgu, hgn⟩ := hex
        exact absurd (by simp [hgu, hgn] :
          (g.user_id == uid && pyLower g.name == pyLower (pyStrip raw)) = true)
          (hf g hg)
    obtain ⟨g', hg'⟩ := hfind
    constructor
    · exact ⟨"Tag with this name already exists",
        by simp [TagService.create_tag, hval, hg']⟩
    · simp [applyOp, TagService.create_tag, hval, hg']
  case updConflict =>
    intro gid tag nm hacc hex hall
    have hfind : ∃ g', TagRepo.get_by_name st uid nm = Option.some g' := by
      cases hf : TagRepo.get_by_name st uid nm with
      | some g' => exact ⟨g', rfl⟩
      | none =>
        unfold TagRepo.get_by_name at hf
        rw [List.find?_eq_none] at hf
        obtain ⟨g, hg, hgu, hgn⟩ := hex
        exact absurd (by simp [hgu, hgn] :
          (g.user_id == uid && pyLower g.name == pyLower nm) = true)
          (hf g hg)
    obtain ⟨g', hg'⟩ := hfind
    have hmem := List.mem_of_find?_eq_some hg'
    have hp := List.find?_some hg'
    simp only [Bool.and_eq_true, beq_iff_eq] at hp
    have hne : g'.id ≠ gid := hall g' hmem hp.1 hp.2
    refine ⟨"Tag with this name already exists", ?_⟩
    unfold TagService.update_tag_validated
    rw [hacc]
    simp [hg', hne]
  case updOk =>
    intro gid tag nm hacc hall
    have hcol : (match TagRepo.get_by_name st uid nm with
        | Option.some existing => existing.id != gid
        | Option.none => false) = false := by
      cases hf : TagRepo.get_by_name st uid nm with
      | some g' =>
        have hmem := List.mem_of_find?_eq_some hf
        have hp := List.find?_some hf
        simp only [Bool.and_eq_true, beq_iff_eq] at hp
        simp [hall g' hmem hp.1 hp.2]
      | none => rfl
    refine ⟨AuditService.log_updates
        { st with tags := st.tags.map (fun x =>
            if x.id = tag.id then { tag with name := nm } else x) }
        now "tag" tag.id uid
        [{ field := "name", old_value := PyVal.pstr tag.name,
           new_value := PyVal.pstr nm }], ?_⟩
    unfold TagService.update_tag_validated
    rw [hacc]
    simp [hcol, TagRepo.updateName]

/-- Witness for C5: with owner 7 already holding tag Work, a
whitespace-only create is rejected, creating work raises Conflict leaving
the store unchanged, renaming the Home tag to work raises Conflict, and
renaming Work to WORK (its own id excluded from the check) succeeds. -/
theorem C5_tag_name_uniqueness_witness :
    (∃ m, TagService.create_tag workState 9 7 " " =
      Except.error (TagError.validation m)) ∧
    ((∃ m, TagService.create_tag workState 9 7 "work" =
      Except.error (TagError.conflict m)) ∧
      applyOp (Op.tagCreate 9 7 "work") workState = workState) ∧
    (∃ m, TagService.update_tag_validated workState2 9 2 7 (Option.some "work") =
      Except.error (TagError.conflict m)) ∧
    (∃ st', TagService.update_tag_validated workState2 9 1 7 (Option.some "WORK") =
      Except.ok ((TagAccessResult.success,
        Option.some { workTag with name := "WORK" }), st')) :=
  ⟨(C5_tag_name_uniqueness workState 9 7 " ").1 (by decide),
   (C5_tag_name_uniqueness workState 9 7 "work").2.1 (by decide) (by decide),
   (C5_tag_name_uniqueness workState2 9 7 "work").2.2.1 2 homeTag "work"
     (by decide) (by decide) (by decide),
   (C5_tag_name_uniqueness workState2 9 7 "WORK").2.2.2 1 workTag "WORK"
     (by decide) (by decide)⟩

/-- Claim C10: setting a task's tags always succeeds and silently filters
the supplied ids - afterwards the task carries an association to a tag id
exactly when that id was supplied and names a tag owned by the caller;
associations of other tasks, the task table and the tag table are
untouched. -/
theorem C10_set_tags_silent_filtering (st : State) (now : Int) (task : Task)
    (tag_ids : List Nat) (uid : Nat) :
    (TaskRepo.set_tags st now task tag_ids uid).1 = task ∧
    (∀ i, (∃ a ∈ (TaskRepo.set_tags st now task tag_ids uid).2.task_tags,
        a.task_id = task.id ∧ a.tag_id = i) ↔
      (i ∈ tag_ids ∧ ∃ g ∈ st.tags, g.id = i ∧ g.user_id = uid)) ∧
    (∀ a, a.task_id ≠ task.id →
      (a ∈ (TaskRepo.set_tags st now task tag_ids uid).2.task_tags ↔
        a ∈ st.task_tags)) ∧
    (TaskRepo.set_tags st now task tag_ids uid).2.tasks = st.tasks ∧
    (TaskRepo.set_tags st now task tag_ids uid).2.tags = st.tags := by
  refine ⟨rfl, ?member, ?others, rfl, rfl⟩
  case member =>
    intro i
    constructor
    · rintro ⟨a, ha, hat, hai⟩
      unfold TaskRepo.set_tags at ha
      simp only [List.mem_append] at ha
      rcases ha with ha | ha
      · have := (List.mem_filter.mp ha).2
        simp only [bne_iff_ne, ne_eq] at this
        exact absurd hat this
      · by_cases hemp : tag_ids.isEmpty
        · simp [hemp] at ha
        · simp only [hemp, if_neg, Bool.false_eq_true, if_false] at ha
          obtain ⟨g, hg, hga⟩ := List.mem_map.mp ha
          have hgf := List.mem_filter.mp hg
          have hgp := hgf.2
          simp only [Bool.and_eq_true, beq_iff_eq] at hgp
          have hcont : g.id ∈ tag_ids := by simpa using hgp.1
          refine ⟨?_, g, hgf.1, ?_, hgp.2⟩
          · rw [← hai, ← hga]
            exact hcont
          · rw [← hai, ← hga]
    · rintro ⟨hi, g, hg, hgi, hgu⟩
      have hnemp : tag_ids.isEmpty = false := by
        cases tag_ids with
        | nil => cases hi
        | cons x xs => rfl
      refine ⟨{ task_id := task.id, tag_id := g.id, created_at := now }, ?_, rfl, hgi⟩
      unfold TaskRepo.set_tags
      simp only [List.mem_append, hnemp, Bool.false_eq_true, if_false]
      right
      refine List.mem_map.mpr ⟨g, ?_, rfl⟩
      refine List.mem_filter.mpr ⟨hg, ?_⟩
      simp [hgu, hgi ▸ hi]
  case others =>
    intro a hne
    unfold TaskRepo.set_tags
    simp only [List.mem_append]
    constructor
    · rintro (ha | ha)
      · exact (List.mem_filter.mp ha).1
      · by_cases hemp : tag_ids.isEmpty
        · simp [hemp] at ha
        · simp only [hemp, Bool.false_eq_true, if_false] at ha
          obtain ⟨g, _, hga⟩ := List.mem_map.mp ha
          exact absurd (by rw [← hga] : a.task_id = task.id) hne
    · intro ha
      left
      exact List.mem_filter.mpr ⟨ha, by simp [hne]⟩

/-- Witness for C10: on a store owning tags 1 and 2 (owner 7) and one
association of task 42, setting task 1's tags to the ids 1 and 5 attaches
tag 1 and keeps the foreign association. -/
theorem C10_set_tags_silent_filtering_witness :
    (∃ a ∈ (TaskRepo.set_tags tagFixState 9 baseTask [1, 5] 7).2.task_tags,
      a.task_id = baseTask.id ∧ a.tag_id = 1) ∧
    assocOther ∈ (TaskRepo.set_tags tagFixState 9 baseTask [1, 5] 7).2.task_tags :=
  ⟨((C10_set_tags_silent_filtering tagFixState 9 baseTask [1, 5] 7).2.1 1).mpr
    (by decide),
   ((C10_set_tags_silent_filtering tagFixState 9 baseTask [1, 5] 7).2.2.1
    assocOther (by decide)).mpr (by decide)⟩

/-- Updating an association-list bucket stores exactly the new list under
its identifier, whether the key was present or not. -/
theorem find?_update_list (l : List (String × List ℚ)) (ident : String)
    (b : List ℚ) :
    (if l.any (fun p => p.1 == ident) then
       l.map (fun p => if p.1 == ident then (ident, b) else p)
     else l ++ [(ident, b)]).find? (fun p => p.1 == ident) =
      Option.some (ident, b) := by
  induction l with
  | nil => simp [List.find?]
  | cons x xs ih =>
    by_cases hx : x.1 = ident
    · have hx' : (x.1 == ident) = true := by simp [hx]
      simp [List.any_cons, hx', List.find?, hx]
    · have hx' : (x.1 == ident) = false := by simp [hx]
      cases hxs : xs.any (fun p => p.1 == ident) with
      | true =>
        rw [hxs, if_pos rfl] at ih
        have hany : ((x :: xs).any fun p => p.1 == ident) = true := by
          simp [List.any_cons, hxs]
        rw [hany, if_pos rfl, List.map_cons,
          if_neg (by simp [hx'] : ¬((x.1 == ident) = true))]
        rw [List.find?_cons_of_neg _ (by simp [hx'])]
        exact ih
      | false =>
        rw [hxs] at ih
        simp only [Bool.false_eq_true, if_false] at ih
        have hany : ((x :: xs).any fun p => p.1 == ident) = false := by
          simp [List.any_cons, hx', hxs]
        rw [hany]
        simp only [Bool.false_eq_true, if_false, List.cons_append]
        rw [List.find?_cons_of_neg _ (by simp [hx'])]
        exact ih

/-- Reading back the bucket just written. -/
theorem getBucket_setBucket (rl : RateLimiter.Limiter) (ident : String)
    (b : List ℚ) :
    RateLimiter.getBucket (RateLimiter.setBucket rl ident b) ident = b := by
  unfold RateLimiter.getBucket RateLimiter.setBucket
  simp only [find?_update_list rl.buckets ident b]

/-- Claim C6: is_allowed counts the identifier's recorded timestamps newer
than now minus the window; at or above the limit it rejects and the
identifier's recorded requests stay unchanged; below the limit it prunes
the bucket to the window, records now, and returns allowed with remaining
equal to limit - count - 1. -/
theorem C6_rate_limit_window (rl : RateLimiter.Limiter) (now : ℚ)
    (ident : String) :
    (rl.requests_per_minute ≤
        RateLimiter.countInWindow (RateLimiter.getBucket rl ident) now
          rl.window_seconds →
      (RateLimiter.is_allowed rl now ident).1 = (false, 0) ∧
      RateLimiter.getBucket (RateLimiter.is_allowed rl now ident).2 ident =
        RateLimiter.getBucket rl ident) ∧
    (RateLimiter.countInWindow (RateLimiter.getBucket rl ident) now
        rl.window_seconds < rl.requests_per_minute →
      (RateLimiter.is_allowed rl now ident).1 =
        (true, (rl.requests_per_minute : Int) -
          RateLimiter.countInWindow (RateLimiter.getBucket rl ident) now
            rl.window_seconds - 1) ∧
      RateLimiter.getBucket (RateLimiter.is_allowed rl now ident).2 ident =
        (RateLimiter.getBucket rl ident).filter
          (fun t => decide (now - (rl.window_seconds : ℚ) < t)) ++ [now]) := by
  constructor
  · intro hge
    unfold RateLimiter.is_allowed
    rw [if_pos hge]
    exact ⟨rfl, getBucket_setBucket rl ident _⟩
  · intro hlt
    unfold RateLimiter.is_allowed
    rw [if_neg (not_le.mpr hlt)]
    refine ⟨rfl, ?_⟩
    rw [getBucket_setBucket rl ident _]
    rfl

/-- Witness for C6 on the limiter of 3 per 60 seconds already holding
requests at 0, 1 and 2: a 4th request at time 3 is rejected leaving the
bucket unchanged, and a request at time 70 - the window elapsed - is
allowed with remaining 2, the stale entries pruned. -/
theorem C6_rate_limit_window_witness :
    (RateLimiter.is_allowed fullLimiter 3 "u").1 = (false, 0) ∧
    RateLimiter.getBucket (RateLimiter.is_allowed fullLimiter 3 "u").2 "u" =
      [0, 1, 2] ∧
    (RateLimiter.is_allowed fullLimiter 70 "u").1 = (true, 2) ∧
    RateLimiter.getBucket (RateLimiter.is_allowed fullLimiter 70 "u").2 "u" =
      [70] := by
  have h1 := (C6_rate_limit_window fullLimiter 3 "u").1
    (by norm_num [RateLimiter.countInWindow, RateLimiter.getBucket,
      fullLimiter, List.find?, List.filter])
  have h2 := (C6_rate_limit_window fullLimiter 70 "u").2
    (by norm_num [RateLimiter.countInWindow, RateLimiter.getBucket,
      fullLimiter, List.find?, List.filter])
  refine ⟨h1.1, ?_, ?_, ?_⟩
  · rw [h1.2]
    norm_num [RateLimiter.getBucket, fullLimiter, List.find?]
  · rw [h2.1]
    norm_num [RateLimiter.countInWindow, RateLimiter.getBucket, fullLimiter,
      List.find?, List.filter]
  · rw [h2.2]
    norm_num [RateLimiter.getBucket, fullLimiter, List.find?, List.filter]

/-- The left fold by min lands on a list element. -/
theorem foldl_min_mem (ts : List ℚ) (t0 : ℚ) : ts.foldl min t0 ∈ t0 :: ts := by
  induction ts generalizing t0 with
  | nil => simp
  | cons x xs ih =>
    rw [List.foldl_cons]
    rcases List.mem_cons.mp (ih (min t0 x)) with hm | hm
    · rw [hm]
      rcases min_choice t0 x with h' | h' <;> rw [h']
      · exact List.mem_cons_self _ _
      · exact List.mem_cons_of_mem _ (List.mem_cons_self _ _)
    · exact List.mem_cons_of_mem _ (List.mem_cons_of_mem _ hm)

/-- The left fold by min bounds every list element and the seed. -/
theorem foldl_min_le (ts : List ℚ) (t0 : ℚ) :
    ∀ t ∈ t0 :: ts, ts.foldl min t0 ≤ t := by
  induction ts generalizing t0 with
  | nil =>
    intro t ht
    rw [List.foldl_nil]
    exact le_of_eq (List.mem_singleton.mp ht).symm
  | cons x xs ih =>
    intro t ht
    rw [List.foldl_cons]
    have hmin : List.foldl min (min t0 x) xs ≤ min t0 x :=
      ih (min t0 x) (min t0 x) (List.mem_cons_self _ _)
    rcases List.mem_cons.mp ht with h | h
    · subst h
      exact le_trans hmin (min_le_left _ _)
    · rcases List.mem_cons.mp h with h' | h'
      · subst h'
        exact le_trans hmin (min_le_right _ _)
      · exact ih (min t0 x) t (List.mem_cons_of_mem _ h')

/-- Claim C7: for an identifier whose bucket holds at least one entry,
retryAfter reports the truncated number of seconds until the oldest
retained entry leaves the sliding window, and that report is at least 1. -/
theorem C7_retry_after_oldest (rl : RateLimiter.Limiter) (now : ℚ)
    (ident : String) (p : String × List ℚ) (t0 : ℚ) (ts : List ℚ)
    (hfind : rl.buckets.find? (fun q => q.1 == ident) = Option.some p)
    (hb : p.2 = t0 :: ts) :
    ∃ oldest, oldest ∈ p.2 ∧ (∀ t ∈ p.2, oldest ≤ t) ∧
      RateLimiter.get_retry_after rl now ident =
        max 1 (RateLimiter.pyInt ((rl.window_seconds : ℚ) - (now - oldest))) ∧
      1 ≤ RateLimiter.get_retry_after rl now ident := by
  obtain ⟨pn, pl⟩ := p
  have hb' : pl = t0 :: ts := hb
  subst hb'
  have hrun : RateLimiter.get_retry_after rl now ident =
      max 1 (RateLimiter.pyInt
        ((rl.window_seconds : ℚ) - (now - ts.foldl min t0))) := by
    unfold RateLimiter.get_retry_after
    rw [hfind]
  refine ⟨ts.foldl min t0, ?_, ?_, hrun, ?_⟩
  · exact foldl_min_mem ts t0
  · exact foldl_min_le ts t0
  · rw [hrun]; exact le_max_left _ _

/-- Witness for C7 on the bucket holding 0, 1 and 2 at time 3 with a
60-second window: the report is governed by the oldest entry and is
positive. -/
theorem C7_retry_after_oldest_witness :
    ∃ oldest, oldest ∈ (("u", ([0, 1, 2] : List ℚ))).2 ∧
      (∀ t ∈ (("u", ([0, 1, 2] : List ℚ))).2, oldest ≤ t) ∧
      RateLimiter.get_retry_after fullLimiter 3 "u" =
        max 1 (RateLimiter.pyInt
          ((fullLimiter.window_seconds : ℚ) - (3 - oldest))) ∧
      1 ≤ RateLimiter.get_retry_after fullLimiter 3 "u" :=
  C7_retry_after_oldest fullLimiter 3 "u" ("u", [0, 1, 2]) 0 [1, 2]
    (by decide) rfl

/-! Helper lemmas for the per-operation invariants. -/

/-- A fresh row created by the task repository is status-consistent. -/
theorem create_row_consistent (st : State) (now : Int) (uid : Nat)
    (title : String) (d : Option String) (pr : Priority) (dd : Option Int)
    (rc : Recurrence) :
    (TaskRepo.create st now uid title d pr dd rc).1.consistent := by
  simp [TaskRepo.create, Task.consistent]

/-- Replacing one row by a consistent row preserves store consistency. -/
theorem saveTask_consistent {st : State} {t' : Task}
    (h : st.tasksConsistent) (ht' : t'.consistent) :
    (st.saveTask t').tasksConsistent := by
  intro t ht
  obtain ⟨s, hs, hfs⟩ := List.mem_map.mp ht
  by_cases hid : s.id = t'.id
  · rw [← hfs, if_pos hid]; exact ht'
  · rw [← hfs, if_neg hid]; exact h s hs

/-- Batched audit updates never touch the task table. -/
theorem log_updates_tasks_eq (cs : List AuditService.Change) (st : State)
    (now : Int) (a : String) (b c : Nat) :
    (AuditService.log_updates st now a b c cs).tasks = st.tasks := by
  induction cs generalizing st with
  | nil => rfl
  | cons x xs ih =>
    show (AuditService.log_updates
      (AuditService.log_update st now a b c x) now a b c xs).tasks = st.tasks
    rw [ih]
    rfl

/-- Audit extension is reflexive. -/
theorem auditExtends_rfl (st : State) : AuditExtends st st := ⟨[], by simp⟩

/-- Audit extension composes. -/
theorem auditExtends_trans {a b c : State} (h1 : AuditExtends a b)
    (h2 : AuditExtends b c) : AuditExtends a c := by
  obtain ⟨n1, e1⟩ := h1
  obtain ⟨n2, e2⟩ := h2
  exact ⟨n1 ++ n2, by rw [e2, e1, List.append_assoc]⟩

/-- States with equal audit logs extend each other. -/
theorem auditExtends_of_eq {a b : State} (h : b.audit = a.audit) :
    AuditExtends a b := ⟨[], by simp [h]⟩

/-- Batched audit updates only append entries. -/
theorem auditExtends_log_updates (cs : List AuditService.Change) (st : State)
    (now : Int) (a : String) (b c : Nat) :
    AuditExtends st (AuditService.log_updates st now a b c cs) := by
  induction cs generalizing st with
  | nil => exact auditExtends_rfl st
  | cons x xs ih =>
    refine auditExtends_trans (b := AuditService.log_update st now a b c x)
      ⟨_, rfl⟩ ?_
    exact ih (AuditService.log_update st now a b c x)

/-- A successful tag create keeps the task table and only appends audit. -/
theorem create_tag_ok_elim {st : State} {now : Int} {uid : Nat} {nm : String}
    {pr : Tag × State} (hc : TagService.create_tag st now uid nm = Except.ok pr) :
    pr.2.tasks = st.tasks ∧ AuditExtends st pr.2 := by
  unfold TagService.create_tag at hc
  split at hc
  · cases hc
  · split at hc
    · cases hc
    · simp only [TagRepo.create] at hc
      cases hc
      exact ⟨rfl, ⟨_, rfl⟩⟩

/-- A successful tag update keeps the task table and only appends audit. -/
theorem update_tag_validated_ok_elim {st : State} {now : Int} {gid uid : Nat}
    {nmo : Option String} {pr : (TagAccessResult × Option Tag) × State}
    (hc : TagService.update_tag_validated st now gid uid nmo = Except.ok pr) :
    pr.2.tasks = st.tasks ∧ AuditExtends st pr.2 := by
  unfold TagService.update_tag_validated at hc
  split at hc
  · split at hc
    · cases hc
      exact ⟨rfl, auditExtends_rfl st⟩
    · split at hc
      · rename_i existing heq
        by_cases hbe : (existing.id != gid) = true
        · rw [if_pos hbe] at hc
          cases hc
        · rw [if_neg hbe] at hc
          simp only [TagRepo.updateName] at hc
          cases hc
          exact ⟨rfl, ⟨_, rfl⟩⟩
      · simp only [Bool.false_eq_true, if_false, TagRepo.updateName] at hc
        cases hc
        exact ⟨rfl, ⟨_, rfl⟩⟩
  · cases hc
    exact ⟨rfl, auditExtends_rfl st⟩

/-- A successful raw tag update keeps the task table and only appends
audit. -/
theorem update_tag_ok_elim {st : State} {now : Int} {gid uid : Nat}
    {raw : Option String} {pr : (TagAccessResult × Option Tag) × State}
    (hc : TagService.update_tag st now gid uid raw = Except.ok pr) :
    pr.2.tasks = st.tasks ∧ AuditExtends st pr.2 := by
  unfold TagService.update_tag at hc
  split at hc
  · exact update_tag_validated_ok_elim hc
  · split at hc
    · cases hc
    · exact update_tag_validated_ok_elim hc

/-- Tag deletion keeps the task table and only appends audit. -/
theorem delete_tag_state_elim (st : State) (now : Int) (gid uid : Nat) :
    (TagService.delete_tag st now gid uid).2.tasks = st.tasks ∧
    AuditExtends st (TagService.delete_tag st now gid uid).2 := by
  unfold TagService.delete_tag
  constructor
  · split <;> rfl
  · split
    · exact ⟨_, rfl⟩
    · exact auditExtends_rfl st

/-- The task table after a service create is the old table plus the one
fresh row. -/
theorem create_task_tasks (st : State) (now : Int) (uid : Nat)
    (data : TaskCreate) :
    (TaskService.create_task st now uid data).2.tasks =
      st.tasks ++ [(TaskRepo.create st now uid data.title data.description
        data.priority data.due_date data.recurrence).1] := by
  unfold TaskService.create_task
  cases hemp : data.tag_ids.isEmpty with
  | true => rfl
  | false => rfl

/-- A task update leaves every stored row status-consistent. -/
theorem update_task_consistent (st : State) (now : Int) (tid uid : Nat)
    (p : TaskUpdate) (h : st.tasksConsistent) :
    (TaskService.update_task st now tid uid p).2.tasksConsistent := by
  simp only [TaskService.update_task]
  split
  · rename_i task heq
    have hmem := (get_by_id_elim (gtac_success_elim heq)).1
    have h1 : (TaskService.repoUpdate now task p).consistent := h task hmem
    have key := saveTask_consistent h h1
    cases htag : p.tag_ids with
    | none =>
      cases hch : (TaskService.updateChanges task p).isEmpty with
      | true => exact key
      | false =>
        intro t ht
        have ht' : t ∈ (AuditService.log_updates
            (st.saveTask (TaskService.repoUpdate now task p)) now "task"
            (TaskService.repoUpdate now task p).id uid
            (TaskService.updateChanges task p)).tasks := ht
        rw [log_updates_tasks_eq] at ht'
        exact key t ht'
    | some o =>
      cases o with
      | none =>
        cases hch : (TaskService.updateChanges task p).isEmpty with
        | true => exact key
        | false =>
          intro t ht
          have ht' : t ∈ (AuditService.log_updates
              (st.saveTask (TaskService.repoUpdate now task p)) now "task"
              (TaskService.repoUpdate now task p).id uid
              (TaskService.updateChanges task p)).tasks := ht
          rw [log_updates_tasks_eq] at ht'
          exact key t ht'
      | some ids =>
        cases hch : (TaskService.updateChanges task p).isEmpty with
        | true => exact key
        | false =>
          intro t ht
          have ht' : t ∈ (AuditService.log_updates
              ((TaskRepo.set_tags (st.saveTask (TaskService.repoUpdate now task p))
                now (TaskService.repoUpdate now task p) ids uid).2) now "task"
              ((TaskRepo.set_tags (st.saveTask (TaskService.repoUpdate now task p))
                now (TaskService.repoUpdate now task p) ids uid).1).id uid
              (TaskService.updateChanges task p)).tasks := ht
          rw [log_updates_tasks_eq] at ht'
          exact key t ht'
  · exact h

/-- Completing a task leaves every stored row status-consistent. -/
theorem complete_task_consistent (st : State) (now : Int) (tid uid : Nat)
    (h : st.tasksConsistent) :
    (TaskService.complete_task st now tid uid).2.tasksConsistent := by
  unfold TaskService.complete_task
  split
  · rename_i task heq
    have hmem := (get_by_id_elim (gtac_success_elim heq)).1
    have hcons := h task hmem
    cases hic : task.is_completed with
    | true => exact h
    | false =>
      have hc1 : ({ task with
          is_completed := true,
          completed_at := Option.some now,
          updated_at := now } : Task).consistent := ⟨by simp, hcons.2⟩
      simp only [Bool.false_eq_true, if_false, TaskRepo.complete]
      by_cases hr : task.recurrence ≠ Recurrence.none ∧ task.due_date ≠ Option.none
      · rw [if_pos hr]
        intro t ht
        have ht' : t ∈ (st.saveTask { task with
            is_completed := true,
            completed_at := Option.some now,
            updated_at := now }).tasks ++
          [(TaskService.create_recurring_task
            (AuditService.log_complete (st.saveTask { task with
              is_completed := true,
              completed_at := Option.some now,
              updated_at := now }) now "task" task.id uid) now
            { task with
              is_completed := true,
              completed_at := Option.some now,
              updated_at := now } uid).1] := ht
        rcases List.mem_append.mp ht' with h1 | h1
        · exact saveTask_consistent h hc1 t h1
        · rw [List.mem_singleton.mp h1]
          exact create_row_consistent
            (AuditService.log_complete (st.saveTask { task with
              is_completed := true,
              completed_at := Option.some now,
              updated_at := now }) now "task" task.id uid) now uid
            task.title task.description task.priority
            (TaskService.calculate_next_due_date task.due_date task.recurrence)
            task.recurrence
      · rw [if_neg hr]
        exact saveTask_consistent h hc1
  · exact h

/-- Marking a task incomplete leaves every stored row status-consistent. -/
theorem uncomplete_task_consistent (st : State) (now : Int) (tid uid : Nat)
    (h : st.tasksConsistent) :
    (TaskService.uncomplete_task st now tid uid).2.tasksConsistent := by
  unfold TaskService.uncomplete_task
  split
  · rename_i task heq
    have hmem := (get_by_id_elim (gtac_success_elim heq)).1
    have hcons := h task hmem
    cases hic : task.is_completed with
    | false => exact h
    | true =>
      have hc1 : ({ task with
          is_completed := false,
          completed_at := Option.none,
          updated_at := now } : Task).consistent := ⟨by simp, hcons.2⟩
      exact saveTask_consistent h hc1
  · exact h

/-- Soft-deleting a task leaves every stored row status-consistent. -/
theorem delete_task_consistent (st : State) (now : Int) (tid uid : Nat)
    (h : st.tasksConsistent) :
    (TaskService.delete_task st now tid uid).2.tasksConsistent := by
  unfold TaskService.delete_task
  split
  · rename_i task heq
    have hmem := (get_by_id_elim (gtac_success_elim heq)).1
    have hcons := h task hmem
    have hc1 : ({ task with
        is_deleted := true,
        deleted_at := Option.some now,
        deleted_by := Option.some uid,
        updated_at := now } : Task).consistent := ⟨hcons.1, by simp⟩
    exact saveTask_consistent h hc1
  · exact h

/-- Claim C8: every mutating operation of the code base - task create,
update, complete, uncomplete, soft delete and restore, plus the tag
operations - preserves the store invariant that a task's completion flag
is true exactly when its completion timestamp is set and its deletion flag
is true exactly when its deletion timestamp and deleting actor are set. -/
theorem C8_status_consistency (op : Op) (st : State)
    (h : st.tasksConsistent) : (applyOp op st).tasksConsistent := by
  cases op with
  | taskCreate now uid data =>
    intro t ht
    have ht' : t ∈ (TaskService.create_task st now uid data).2.tasks := ht
    rw [create_task_tasks] at ht'
    rcases List.mem_append.mp ht' with h1 | h1
    · exact h t h1
    · rw [List.mem_singleton.mp h1]
      exact create_row_consistent st now uid data.title data.description
        data.priority data.due_date data.recurrence
  | taskUpdate now tid uid p => exact update_task_consistent st now tid uid p h
  | taskComplete now tid uid => exact complete_task_consistent st now tid uid h
  | taskUncomplete now tid uid =>
    exact uncomplete_task_consistent st now tid uid h
  | taskDelete now tid uid => exact delete_task_consistent st now tid uid h
  | taskRestore now tid uid =>
    show (match TaskRepo.get_by_id_including_deleted st tid uid with
      | Option.some t => (TaskRepo.restore st now t).2
      | Option.none => st).tasksConsistent
    cases hfind : TaskRepo.get_by_id_including_deleted st tid uid with
    | none => exact h
    | some task =>
      have hmem : task ∈ st.tasks := List.mem_of_find?_eq_some hfind
      have hcons := h task hmem
      have hc1 : ({ task with
          is_deleted := false,
          deleted_at := Option.none,
          deleted_by := Option.none,
          updated_at := now } : Task).consistent := ⟨hcons.1, by simp⟩
      exact saveTask_consistent h hc1
  | tagCreate now uid nm =>
    show (match TagService.create_tag st now uid nm with
      | Except.ok (_, st') => st'
      | Except.error _ => st).tasksConsistent
    cases hc : TagService.create_tag st now uid nm with
    | error e => exact h
    | ok pr =>
      obtain ⟨tg, st'⟩ := pr
      intro t ht
      have heq : st'.tasks = st.tasks := (create_tag_ok_elim hc).1
      have ht' : t ∈ st'.tasks := ht
      rw [heq] at ht'
      exact h t ht'
  | tagUpdate now gid uid nm =>
    show (match TagService.update_tag st now gid uid nm with
      | Except.ok (_, st') => st'
      | Except.error _ => st).tasksConsistent
    cases hc : TagService.update_tag st now gid uid nm with
    | error e => exact h
    | ok pr =>
      obtain ⟨res, st'⟩ := pr
      intro t ht
      have heq : st'.tasks = st.tasks := (update_tag_ok_elim hc).1
      have ht' : t ∈ st'.tasks := ht
      rw [heq] at ht'
      exact h t ht'
  | tagDelete now gid uid =>
    show (TagService.delete_tag st now gid uid).2.tasksConsistent
    intro t ht
    have heq : (TagService.delete_tag st now gid uid).2.tasks = st.tasks :=
      (delete_tag_state_elim st now gid uid).1
    rw [heq] at ht
    exact h t ht

/-- A service task create only appends to the audit log. -/
theorem create_task_audit (st : State) (now : Int) (uid : Nat)
    (data : TaskCreate) :
    AuditExtends st (TaskService.create_task st now uid data).2 := by
  unfold TaskService.create_task
  cases hemp : data.tag_ids.isEmpty with
  | true => exact ⟨_, rfl⟩
  | false => exact ⟨_, rfl⟩

/-- A service task update only appends to the audit log. -/
theorem update_task_audit (st : State) (now : Int) (tid uid : Nat)
    (p : TaskUpdate) :
    AuditExtends st (TaskService.update_task st now tid uid p).2 := by
  simp only [TaskService.update_task]
  split
  · rename_i task heq
    cases htag : p.tag_ids with
    | none =>
      cases hch : (TaskService.updateChanges task p).isEmpty with
      | true => exact auditExtends_of_eq rfl
      | false =>
        exact auditExtends_trans (auditExtends_of_eq rfl)
          (auditExtends_log_updates (TaskService.updateChanges task p)
            (st.saveTask (TaskService.repoUpdate now task p)) now "task"
            (TaskService.repoUpdate now task p).id uid)
    | some o =>
      cases o with
      | none =>
        cases hch : (TaskService.updateChanges task p).isEmpty with
        | true => exact auditExtends_of_eq rfl
        | false =>
          exact auditExtends_trans (auditExtends_of_eq rfl)
            (auditExtends_log_updates (TaskService.updateChanges task p)
              (st.saveTask (TaskService.repoUpdate now task p)) now "task"
              (TaskService.repoUpdate now task p).id uid)
      | some ids =>
        cases hch : (TaskService.updateChanges task p).isEmpty with
        | true => exact auditExtends_of_eq rfl
        | false =>
          exact auditExtends_trans (auditExtends_of_eq rfl)
            (auditExtends_log_updates (TaskService.updateChanges task p)
              ((TaskRepo.set_tags (st.saveTask (TaskService.repoUpdate now task p))
                now (TaskService.repoUpdate now task p) ids uid).2) now "task"
              ((TaskRepo.set_tags (st.saveTask (TaskService.repoUpdate now task p))
                now (TaskService.repoUpdate now task p) ids uid).1).id uid)
  · exact auditExtends_rfl st

/-- Completing a task only appends to the audit log. -/
theorem complete_task_audit (st : State) (now : Int) (tid uid : Nat) :
    AuditExtends st (TaskService.complete_task st now tid uid).2 := by
  unfold TaskService.complete_task
  split
  · rename_i task heq
    cases hic : task.is_completed with
    | true => exact auditExtends_rfl st
    | false =>
      simp only [Bool.false_eq_true, if_false, TaskRepo.complete]
      by_cases hr : task.recurrence ≠ Recurrence.none ∧ task.due_date ≠ Option.none
      · rw [if_pos hr]
        exact auditExtends_trans
          (b := AuditService.log_complete (st.saveTask { task with
            is_completed := true,
            completed_at := Option.some now,
            updated_at := now }) now "task" task.id uid)
          ⟨_, rfl⟩ ⟨_, rfl⟩
      · rw [if_neg hr]
        exact ⟨_, rfl⟩
  · exact auditExtends_rfl st

/-- Marking a task incomplete only appends to the audit log. -/
theorem uncomplete_task_audit (st : State) (now : Int) (tid uid : Nat) :
    AuditExtends st (TaskService.uncomplete_task st now tid uid).2 := by
  unfold TaskService.uncomplete_task
  split
  · rename_i task heq
    cases hic : task.is_completed with
    | false => exact auditExtends_rfl st
    | true => exact ⟨_, rfl⟩
  · exact auditExtends_rfl st

/-- Soft-deleting a task only appends to the audit log. -/
theorem delete_task_audit (st : State) (now : Int) (tid uid : Nat) :
    AuditExtends st (TaskService.delete_task st now tid uid).2 := by
  unfold TaskService.delete_task
  split
  · exact ⟨_, rfl⟩
  · exact auditExtends_rfl st

/-- The descending insertion sort used by the audit queries is sorted. -/
theorem sorted_orderByTimestampDesc (l : List AuditLog) :
    (AuditRepo.orderByTimestampDesc l).Pairwise AuditRepo.tsDesc :=
  List.sorted_insertionSort AuditRepo.tsDesc l

/-- Pagination keeps the descending order. -/
theorem pairwise_take_drop {l : List AuditLog}
    (h : l.Pairwise AuditRepo.tsDesc) (n o : Nat) :
    ((l.drop o).take n).Pairwise AuditRepo.tsDesc :=
  List.Pairwise.sublist ((List.take_sublist _ _).trans (List.drop_sublist _ _)) h

/-- Claim C9: the audit trail is append-only - every service call leaves
the old entries untouched and at most appends new ones - and every audit
query (by entity, by actor, by action type) returns entries ordered by
timestamp descending. -/
theorem C9_audit_append_only :
    (∀ (op : Op) (st : State), ∃ new, (applyOp op st).audit = st.audit ++ new) ∧
    (∀ (st : State) (ety : String) (eid limit offset : Nat),
      (AuditRepo.get_by_entity st ety eid limit offset).Pairwise
        (fun a b => b.timestamp ≤ a.timestamp)) ∧
    (∀ (st : State) (uid limit offset : Nat),
      (AuditRepo.get_by_user st uid limit offset).Pairwise
        (fun a b => b.timestamp ≤ a.timestamp)) ∧
    (∀ (st : State) (act : ActionType) (since : Option Int) (limit offset : Nat),
      (AuditRepo.get_by_action_type st act since limit offset).Pairwise
        (fun a b => b.timestamp ≤ a.timestamp)) := by
  refine ⟨?append, ?byEntity, ?byUser, ?byAction⟩
  case append =>
    intro op st
    cases op with
    | taskCreate now uid data => exact create_task_audit st now uid data
    | taskUpdate now tid uid p => exact update_task_audit st now tid uid p
    | taskComplete now tid uid => exact complete_task_audit st now tid uid
    | taskUncomplete now tid uid => exact uncomplete_task_audit st now tid uid
    | taskDelete now tid uid => exact delete_task_audit st now tid uid
    | taskRestore now tid uid =>
      show AuditExtends st
        (match TaskRepo.get_by_id_including_deleted st tid uid with
          | Option.some t => (TaskRepo.restore st now t).2
          | Option.none => st)
      cases hfind : TaskRepo.get_by_id_including_deleted st tid uid with
      | none => exact auditExtends_rfl st
      | some task => exact auditExtends_of_eq rfl
    | tagCreate now uid nm =>
      show AuditExtends st
        (match TagService.create_tag st now uid nm with
          | Except.ok (_, st') => st'
          | Except.error _ => st)
      cases hc : TagService.create_tag st now uid nm with
      | error e => exact auditExtends_rfl st
      | ok pr =>
        obtain ⟨tg, st'⟩ := pr
        exact (create_tag_ok_elim hc).2
    | tagUpdate now gid uid nm =>
      show AuditExtends st
        (match TagService.update_tag st now gid uid nm with
          | Except.ok (_, st') => st'
          | Except.error _ => st)
      cases hc : TagService.update_tag st now gid uid nm with
      | error e => exact auditExtends_rfl st
      | ok pr =>
        obtain ⟨res, st'⟩ := pr
        exact (update_tag_ok_elim hc).2
    | tagDelete now gid uid => exact (delete_tag_state_elim st now gid uid).2
  case byEntity =>
    intro st ety eid limit offset
    exact pairwise_take_drop (sorted_orderByTimestampDesc _) limit offset
  case byUser =>
    intro st uid limit offset
    exact pairwise_take_drop (sorted_orderByTimestampDesc _) limit offset
  case byAction =>
    intro st act since limit offset
    exact pairwise_take_drop (sorted_orderByTimestampDesc _) limit offset

/-- Witness for C8: completing the weekly task of a consistent store keeps
every row consistent. -/
theorem C8_status_consistency_witness :
    weeklyState.tasksConsistent ∧
    (applyOp (Op.taskComplete 5 1 1) weeklyState).tasksConsistent :=
  ⟨by decide, C8_status_consistency (Op.taskComplete 5 1 1) weeklyState
    (by decide)⟩

end FastTodo
